import Mathlib

/-!
Verification development for the PASCAL VOC dataset-indexing module
(`dataset/pascal.py`, class `PascalVocDataset`).

Rasters are modelled as row-major lists of rows (`List (List Nat)` for the
instance raster, `List (List Int)` for the category raster), mirroring the
2D uint8 arrays decoded from the PNG annotation files.  All numpy
operations used by the source (`np.where`, `np.unique`, `np.max`,
elementwise comparison, `logical_and`, `logical_or`) act elementwise or
enumerate coordinates in row-major order, and are embedded accordingly.
Boolean float masks (0.0 / 1.0 valued `float32` arrays) are modelled as
`List (List Bool)`; the multi-valued target raster keeps `Nat` entries
(all raster values are small integers, exactly representable in float32,
so no floating-point rounding is involved).

Out-of-range accesses that would raise `IndexError` in Python are modelled
with `Option` (`none` = exception); where the source only ever accesses
in-range positions, `List.getD` with a default is used and the theorems
carry the corresponding in-range hypotheses.
-/

/-! ## Generic 2D raster helpers -/

/-- Elementwise map over a 2D raster (numpy elementwise operation). -/
def map2d (f : α → β) (m : List (List α)) : List (List β) :=
  m.map (fun row => row.map f)

/-- Elementwise binary zip over two 2D rasters of equal shape
(numpy broadcasting of a binary elementwise operation). -/
def zip2d (f : α → β → γ) (a : List (List α)) (b : List (List β)) : List (List γ) :=
  List.zipWith (List.zipWith f) a b

/-- Pixel lookup: `some` of the value at row `i`, column `j`, `none` out of range. -/
def pixAt (m : List (List α)) (i j : Nat) : Option α :=
  (m[i]?).bind (fun row => row[j]?)

/-- Value of a `Nat`-valued raster at a pixel, `0` outside the raster. -/
def natAt (m : List (List Nat)) (i j : Nat) : Nat :=
  (pixAt m i j).getD 0

/-- Value of a boolean mask at a pixel, `false` outside the raster. -/
def maskAt (m : List (List Bool)) (i j : Nat) : Bool :=
  (pixAt m i j).getD false

/-- Value of an `Int`-valued raster at a pixel, via the defaulting lookup used
for the category raster sampling `_cats[tmp[0][0], tmp[1][0]]` (the source
only samples coordinates that exist in the equal-shaped mask raster). -/
def intAt (m : List (List Int)) (i j : Nat) : Int :=
  (m.getD i []).getD j 0

/-! ## Instance Index Builder (`PascalVocDataset._preprocess`, lines 137-156) -/

/-- Coordinates `(i, b)` of the entries of `row` (a raster row with index `i`,
whose first entry sits at column `j`) that equal `v`, in increasing column
order.  Helper for `whereEq`. -/
def rowCoords (i j : Nat) (row : List Nat) (v : Nat) : List (Nat × Nat) :=
  match row with
  | [] => []
  | x :: xs =>
    if x = v then (i, j) :: rowCoords i (j + 1) xs v else rowCoords i (j + 1) xs v

/-- Row-major coordinates of the pixels of `m` equal to `v`, with the first
row of `m` numbered `i`.  Helper for `whereEq`. -/
def whereEqFrom (i : Nat) (m : List (List Nat)) (v : Nat) : List (Nat × Nat) :=
  match m with
  | [] => []
  | r :: rs => rowCoords i 0 r v ++ whereEqFrom (i + 1) rs v

/-- Embedding of `np.where(_mask == v)` (line 148): the row-major list of
coordinates of the pixels of `m` whose value is `v`. -/
def whereEq (m : List (List Nat)) (v : Nat) : List (Nat × Nat) :=
  whereEqFrom 0 m v

/-- Embedding of the loop body at lines 148-153: the category recorded for the
instance with 1-based id `jj + 1`.  `np.where` yields the matching pixel
coordinates, `obj_area = len(tmp[0])` their count; a category is sampled at
the first (row-major) matching pixel only when the area strictly exceeds the
threshold, otherwise the sentinel `-1` is recorded.  (An instance with no
pixels never exceeds the `Nat` threshold, matching the source where an empty
`tmp[0]` has length `0`.) -/
def instCat (mask : List (List Nat)) (cats : List (List Int)) (thres : Nat) (jj : Nat) : Int :=
  let coords := whereEq mask (jj + 1)
  match coords with
  | [] => -1
  | (r, c) :: _ => if coords.length > thres then intAt cats r c else -1

/-- Embedding of `np.unique` (line 138): the sorted list of distinct values. -/
def uniqueSorted (l : List Nat) : List Nat :=
  (l.insertionSort (· ≤ ·)).dedup

/-- Embedding of lines 138-142: the instance count `n_obj`.  `np.unique`
yields the sorted distinct values `_mask_ids`; if the largest is the
boundary sentinel `255` the second largest is taken (`_mask_ids[-2]`),
otherwise the largest (`_mask_ids[-1]`).  `none` models the `IndexError`
raised when the indexed position does not exist (empty raster, or a raster
whose only value is `255`). -/
def nObjOf (mask : List (List Nat)) : Option Nat :=
  let ids := uniqueSorted mask.flatten
  match ids.getLast? with
  | none => none
  | some lastId => if lastId = 255 then ids.dropLast.getLast? else some lastId

/-- Embedding of the per-image body of `_preprocess` (lines 137-156): the
Instance Category List `_cat_ids` derived from one instance raster and its
parallel category raster.  `none` models the `IndexError` edge in `nObjOf`. -/
def buildCatIds (mask : List (List Nat)) (cats : List (List Int)) (thres : Nat) :
    Option (List Int) :=
  (nObjOf mask).map (fun n => (List.range n).map (instCat mask cats thres))

/-! ## Specification-side notions for the Index Builder -/

/-- Number of pixels of `m` whose value is `v` (specification-side count). -/
def pixelCount (m : List (List Nat)) (v : Nat) : Nat :=
  (m.flatten).count v

/-- Row-major (lexicographic) reflexive order on pixel coordinates. -/
def lexLe (p q : Nat × Nat) : Prop :=
  p.1 < q.1 ∨ (p.1 = q.1 ∧ p.2 ≤ q.2)

/-- Row-major (lexicographic) strict order on pixel coordinates. -/
def lexLt (p q : Nat × Nat) : Prop :=
  p.1 < q.1 ∨ (p.1 = q.1 ∧ p.2 < q.2)

/-- Specification-side statement that `p` is the row-major first pixel of `m`
holding value `v`: it holds `v` and is lexicographically least among all
pixels holding `v`. -/
def isFirstOcc (m : List (List Nat)) (v : Nat) (p : Nat × Nat) : Prop :=
  pixAt m p.1 p.2 = some v ∧ ∀ q : Nat × Nat, pixAt m q.1 q.2 = some v → lexLe p q

/-- Specification-side list of the distinct non-zero, non-boundary (`≠ 255`)
instance ids present in a raster. -/
def distinctInstanceIds (m : List (List Nat)) : List Nat :=
  (uniqueSorted m.flatten).filter (fun v => v != 0 && v != 255)

/-- Specification-side maximum non-boundary (`≠ 255`) value of a raster,
`0` when there is none. -/
def maxNonBoundary (m : List (List Nat)) : Nat :=
  ((m.flatten).filter (fun v => v != 255)).foldr max 0

/-! ## Sample Assembler (`PascalVocDataset._make_img_gt_point_pair`, lines 166-197) -/

/-- Embedding of `np.max(_tmp)` (line 188) over a non-empty raster: the
largest pixel value.  (`np.max` raises on an empty array; the assembler is
only ever invoked on decoded, non-empty rasters.) -/
def maxOf (m : List (List Nat)) : Nat :=
  (m.flatten).foldr max 0

/-- Condition of the `if` branch at line 190: the candidate instance `ii`
has the same catalog category as the target object and is not the target
itself.  `cats.getD _ (-1)` models the Python list indexing
`self.obj_dict[...][ii-1]`, which is in range whenever the catalog list was
built from the same raster (`ii - 1 < n_obj`). -/
def sameCondB (cats : List Int) (objIdx ii : Nat) : Bool :=
  (cats.getD objIdx (-1) == cats.getD (ii - 1) (-1)) && (ii != objIdx + 1)

/-- Condition under which the `elif` branch at line 192 fires for candidate
`ii` (specification-side complement of `sameCondB` below the target-identity
guard): differing catalog category and not the target instance. -/
def otherCondB (cats : List Int) (objIdx ii : Nat) : Bool :=
  !(cats.getD objIdx (-1) == cats.getD (ii - 1) (-1)) && (ii != objIdx + 1)

/-- Body of the loop at lines 188-193: fold one candidate instance id `ii`
into the (same-class, other-class) distractor mask pair. -/
def sameOtherStep (tmp : List (List Nat)) (cats : List Int) (objIdx : Nat)
    (acc : List (List Bool) × List (List Bool)) (ii : Nat) :
    List (List Bool) × List (List Bool) :=
  if sameCondB cats objIdx ii then
    (zip2d (· || ·) acc.1 (map2d (fun v => v == ii) tmp), acc.2)
  else if ii != objIdx + 1 then
    (acc.1, zip2d (· || ·) acc.2 (map2d (fun v => v == ii) tmp))
  else acc

/-- Embedding of the loop at lines 188-193: starting from the two all-zero
masks of lines 178-179, iterate `ii = 1, ..., np.max(_tmp)` accumulating the
same-class and other-class distractor masks. -/
def sameOtherLoop (tmp : List (List Nat)) (cats : List Int) (objIdx : Nat) :
    List (List Bool) × List (List Bool) :=
  (List.range' 1 (maxOf tmp)).foldl (sameOtherStep tmp cats objIdx)
    (map2d (fun _ => false) tmp, map2d (fun _ => false) tmp)

/-- The five mask arrays returned by `_make_img_gt_point_pair` (the decoded
image, returned alongside them, is handled separately by the retrieval
model).  `target` keeps `Nat` entries because in default mode it is the
multi-valued raster itself; the four boolean-derived float masks are `Bool`
rasters (`true` = `1.0`). -/
structure MaskSet where
  target : List (List Nat)
  voidPixels : List (List Bool)
  otherClasses : List (List Bool)
  otherSameClass : List (List Bool)
  background : List (List Bool)
deriving DecidableEq

/-- Embedding of `_make_img_gt_point_pair` (lines 174-197) on the raw
instance raster `raw`, the image's Instance Category List `cats`, and the
instance position `objIdx`.  `dflt` is the constructor's `default` flag. -/
def makeImgGtPointPair (dflt : Bool) (raw : List (List Nat)) (cats : List Int)
    (objIdx : Nat) : MaskSet :=
  let voidPx := map2d (fun v => v == 255) raw
  let tmp := map2d (fun v => if v = 255 then 0 else v) raw
  let bg := zip2d (fun t w => (t == 0) && !w) tmp voidPx
  if dflt then
    { target := tmp
      voidPixels := voidPx
      otherClasses := map2d (fun _ => false) tmp
      otherSameClass := map2d (fun _ => false) tmp
      background := bg }
  else
    let so := sameOtherLoop tmp cats objIdx
    { target := map2d (fun v => if v = objIdx + 1 then 1 else 0) tmp
      voidPixels := voidPx
      otherClasses := so.2
      otherSameClass := so.1
      background := bg }

/-! ## Object List Builder (`PascalVocDataset.__init__`, lines 86-95) and `__len__` -/

/-- Embedding of the loop at lines 86-95: iterate image positions `ii` in
identifier order, and for each, instance positions `jj` over that image's
Instance Category List (`objDict` models the `obj_dict` mapping), appending
`(ii, jj)` exactly for the non-sentinel entries. -/
def buildObjList (imIds : List String) (objDict : String → List Int) : List (Nat × Nat) :=
  (List.range imIds.length).flatMap (fun ii =>
    (List.range (objDict (imIds.getD ii "")).length).filterMap (fun jj =>
      if (objDict (imIds.getD ii "")).getD jj 0 = -1 then none else some (ii, jj)))

/-- Embedding of `__len__` (lines 102-103): the Object List's length. -/
def datasetLen (imIds : List String) (objDict : String → List Int) : Nat :=
  (buildObjList imIds objDict).length

/-- Specification-side total count of non-sentinel catalog entries. -/
def nonSentinelTotal (imIds : List String) (objDict : String → List Int) : Nat :=
  (imIds.map (fun k => ((objDict k).filter (fun x => x != -1)).length)).sum

/-- Specification-side total raw instance count (every catalog entry,
sentinel or not; this is what the source's `obj_counter` accumulates). -/
def rawInstanceTotal (imIds : List String) (objDict : String → List Int) : Nat :=
  (imIds.map (fun k => (objDict k).length)).sum

/-- Embedding of `self.obj_list[index]` followed by the mask assembly, as a
fallible operation: `none` models the `IndexError` raised at line 167 when
`index` is out of range of the Object List. -/
def makePairAt (objList : List (Nat × Nat)) (masksOf : Nat → List (List Nat))
    (catsFor : Nat → List Int) (dflt : Bool) (index : Nat) : Option MaskSet :=
  (objList[index]?).map (fun p => makeImgGtPointPair dflt (masksOf p.1) (catsFor p.1) p.2)

/-- Embedding of the constructor's final statement
`self._make_img_gt_point_pair(1)` (line 100): construction completes only if
assembling the sample at position `1` of the freshly built Object List
succeeds. -/
def initFinalStep (imIds : List String) (objDict : String → List Int)
    (masksOf : Nat → List (List Nat)) (dflt : Bool) : Option MaskSet :=
  makePairAt (buildObjList imIds objDict) masksOf
    (fun ii => objDict (imIds.getD ii "")) dflt 1

/-! ## Public retrieval (`PascalVocDataset.__getitem__`, lines 106-121) -/

/-- Decoded RGB image: a row-major grid of (r, g, b) pixel values. -/
abbrev RGBImage := List (List (Nat × Nat × Nat))

/-- Embedding of `(_img.shape[0], _img.shape[1])`: the spatial size of a
decoded (rectangular) image. -/
def imageSizeOf (img : RGBImage) : Nat × Nat :=
  (img.length, (img.getD 0 []).length)

/-- The `sample['meta']` dictionary built at lines 113-116. -/
structure Meta where
  image : String
  object : String
  category : Int
  imSize : Nat × Nat
deriving DecidableEq

/-- The sample dictionary built by `__getitem__` (lines 108-116): keys
`image`, `gt`, `void_pixels`, and optionally `meta`. -/
structure Sample where
  image : RGBImage
  gt : List (List Nat)
  voidPixels : List (List Bool)
  meta : Option Meta
deriving DecidableEq

/-- Embedding of `__getitem__` (lines 106-121).  The last three return
values of `_make_img_gt_point_pair` are discarded by the destructuring
assignment `_img, _target, _void_pixels, _, _, _ = ...` at line 107; the
sample dictionary receives only `image`, `gt` and `void_pixels`, plus
`meta` when `retname` is set.  `transform` is the optional user-supplied
post-processing hook; `none` models out-of-range `index` (`IndexError`). -/
def getitem (objList : List (Nat × Nat)) (imIds : List String)
    (objDict : String → List Int) (imagesOf : Nat → RGBImage)
    (masksOf : Nat → List (List Nat)) (dflt retname : Bool)
    (transform : Option (Sample → Sample)) (index : Nat) : Option Sample :=
  match objList[index]? with
  | none => none
  | some (imII, objII) =>
    let s := makeImgGtPointPair dflt (masksOf imII) (objDict (imIds.getD imII "")) objII
    let sample : Sample :=
      { image := imagesOf imII
        gt := s.target
        voidPixels := s.voidPixels
        meta :=
          if retname then
            some { image := imIds.getD imII ""
                   object := toString objII
                   category := (objDict (imIds.getD imII "")).getD objII (-1)
                   imSize := imageSizeOf (imagesOf imII) }
          else none }
    some (match transform with | none => sample | some t => t sample)

/-! ## Catalog cache file: writer (`_preprocess`, lines 158-162) and reader
(`json.load` at line 128, restricted to the catalog grammar)

The writer emits, by hand, the text

  `\x7b\n\t"id0": [c, ...],\n\t"id1": [c, ...], ... \n\x7d\n`

(opening brace, one `\n\t"key": value` entry per identifier in identifier
order, comma-separated, closing newline-brace-newline), where each value is
`json.dumps` of the category list (`[` `]`-delimited, `, `-separated decimal
integers).  The reader models `json.load` on exactly this grammar: it
returns the key/value pairs in file order (`none` = the `JSONDecodeError`
raised on content that does not parse). -/

/-- Decimal digit rendering of one digit value (`0 ↦ '0'`, ..., `9 ↦ '9'`). -/
def digitVal (c : Char) : Nat := c.toNat - 48

/-- Decimal rendering of a natural number, most significant digit first
(Python's `str` on a non-negative int). -/
def natRepr (n : Nat) : List Char :=
  if n = 0 then ['0'] else ((Nat.digits 10 n).map Nat.digitChar).reverse

/-- Decimal rendering of an integer (Python's `str`/`json.dumps` on an int):
a minus sign followed by the digits when negative. -/
def intRepr : Int → List Char
  | Int.ofNat n => natRepr n
  | Int.negSucc n => '-' :: natRepr (n + 1)

/-- Embedding of `json.dumps` on a list of integers: `[` `]`-delimited,
`, `-separated decimal integers (`[]` for the empty list). -/
def dumpsList (l : List Int) : List Char :=
  match l with
  | [] => ['[', ']']
  | x :: xs => '[' :: (intRepr x ++ xs.flatMap (fun y => ',' :: ' ' :: intRepr y) ++ [']'])

/-- Text of one catalog entry as written at lines 159 and 161:
`\n\t"key": value`. -/
def entryText (k : String) (v : List Int) : List Char :=
  '\n' :: '\t' :: '"' :: (k.data ++ '"' :: ':' :: ' ' :: dumpsList v)

/-- Text following the first entry: a `,`-prefixed entry per remaining
identifier (loop at lines 160-161), then the closing `\n` brace `\n`
(line 162). -/
def entriesTail : List (String × List Int) → List Char
  | [] => '\n' :: '}' :: '\n' :: []
  | e :: es => ',' :: (entryText e.1 e.2 ++ entriesTail es)

/-- Embedding of the cache writer (lines 158-162) on the catalog's entries in
identifier order.  `none` models the `IndexError` raised by
`self.im_ids[0]` at line 159 when the identifier list is empty. -/
def serializeCatalog : List (String × List Int) → Option (List Char)
  | [] => none
  | e :: es => some ('{' :: (entryText e.1 e.2 ++ entriesTail es))

/-- Maximal leading run of decimal digits, interpreted as a number; `none`
when the input does not start with a digit. -/
def parseNat (s : List Char) : Option (Nat × List Char) :=
  let ds := s.takeWhile (·.isDigit)
  if ds.isEmpty then none
  else some (ds.foldl (fun a c => 10 * a + digitVal c) 0, s.dropWhile (·.isDigit))

/-- JSON integer: optional minus sign followed by digits. -/
def parseInt (s : List Char) : Option (Int × List Char) :=
  match s with
  | [] => none
  | c :: rest =>
    if c = '-' then (parseNat rest).map (fun p => (-(p.1 : Int), p.2))
    else (parseNat (c :: rest)).map (fun p => ((p.1 : Int), p.2))

/-- Comma-space separated integers up to the closing `]` (the items of a
non-empty `json.dumps` list).  `fuel` bounds the recursion; each item
consumes at least one character, so the input length suffices. -/
def parseItems (fuel : Nat) (s : List Char) : Option (List Int × List Char) :=
  match fuel with
  | 0 => none
  | fuel + 1 =>
    match parseInt s with
    | none => none
    | some (x, rest) =>
      match rest with
      | ',' :: ' ' :: rest2 => (parseItems fuel rest2).map (fun p => (x :: p.1, p.2))
      | ']' :: rest2 => some ([x], rest2)
      | _ => none

/-- JSON list of integers in the `json.dumps` rendering. -/
def parseList (s : List Char) : Option (List Int × List Char) :=
  match s with
  | '[' :: c :: rest =>
    if c = ']' then some ([], rest) else parseItems (c :: rest).length (c :: rest)
  | _ => none

/-- JSON string body: the characters up to the closing quote. -/
def parseKey (s : List Char) : Option (String × List Char) :=
  match s.dropWhile (· != '"') with
  | '"' :: rest2 => some (String.mk (s.takeWhile (· != '"')), rest2)
  | _ => none

/-- One `\n\t"key": value` catalog entry. -/
def parseEntry (s : List Char) : Option ((String × List Int) × List Char) :=
  match s with
  | '\n' :: '\t' :: '"' :: rest =>
    match parseKey rest with
    | none => none
    | some (k, rest2) =>
      match rest2 with
      | ':' :: ' ' :: rest3 => (parseList rest3).map (fun p => ((k, p.1), p.2))
      | _ => none
  | _ => none

/-- Comma-separated catalog entries followed by the closing `\n` brace `\n`
and end of input.  `fuel` bounds the recursion; each entry consumes at least
one character, so the input length suffices. -/
def parseEntries (fuel : Nat) (s : List Char) : Option (List (String × List Int)) :=
  match fuel with
  | 0 => none
  | fuel + 1 =>
    match parseEntry s with
    | none => none
    | some (kv, rest) =>
      match rest with
      | ',' :: rest2 => (parseEntries fuel rest2).map (kv :: ·)
      | '\n' :: '}' :: '\n' :: [] => some [kv]
      | _ => none

/-- Model of `json.load` (line 128) on a cache file's characters, restricted
to the grammar the writer emits: the catalog's key/value pairs in file
order, or `none` for content that fails to parse (the raised
`JSONDecodeError`). -/
def parseCatalog (s : List Char) : Option (List (String × List Int)) :=
  match s with
  | '{' :: rest => parseEntries (rest.length + 1) rest
  | _ => none

/-- Characters that may appear in a cache key for `json.load` to read it
back verbatim: no quote, no backslash (escape introducer), no raw control
character. -/
def keySafeChar (c : Char) : Bool :=
  c != '"' && c != '\\' && 32 ≤ c.toNat

/-- Identifier whose characters are all cache-safe. -/
def keySafe (k : String) : Bool :=
  k.data.all keySafeChar

/-! ## Instance Catalog build / load (`_check_preprocess`, lines 123-130, and
`__init__` lines 81-83) -/

/-- Embedding of `_check_preprocess` (lines 123-130).  `cache` is the cache
file's content, `none` when the file is absent.  The result is
`Except.error ()` when `json.load` raises on malformed content (the source
does not catch it), otherwise `(valid?, loaded catalog)` where validity is
the sorted-key-set comparison of line 130. -/
def checkPreprocess (cache : Option (List Char)) (imIds : List String) :
    Except Unit (Bool × List (String × List Int)) :=
  match cache with
  | none => .ok (false, [])
  | some content =>
    match parseCatalog content with
    | none => .error ()
    | some d =>
      .ok (decide (((d.map Prod.fst).insertionSort (· ≤ ·)) =
        (imIds.insertionSort (· ≤ ·))), d)

/-- Embedding of the per-image catalog accumulation of `_preprocess`
(lines 133-156): the Instance Category List of every image in identifier
order, keyed by identifier.  `none` models the `IndexError` edge of
`nObjOf` on a degenerate raster. -/
def preprocessCatalog (imIds : List String) (masksOf : Nat → List (List Nat))
    (catRasterOf : Nat → List (List Int)) (thres : Nat) :
    Option (List (String × List Int)) :=
  (List.range imIds.length).mapM (fun ii =>
    (buildCatIds (masksOf ii) (catRasterOf ii) thres).map
      (fun l => (imIds.getD ii "", l)))

/-- Embedding of lines 81-83 of `__init__`: consult the cache-validity
check; on an invalid cache or a forced `preprocess`, rebuild the catalog
(`fresh` stands for the catalog `_preprocess` computes), otherwise keep the
loaded one.  A parse error raised inside `_check_preprocess` propagates to
the caller (`Except.error`). -/
def initCatalog (cache : Option (List Char)) (imIds : List String)
    (fresh : List (String × List Int)) (forcePre : Bool) :
    Except Unit (List (String × List Int)) :=
  match checkPreprocess cache imIds with
  | .error e => .error e
  | .ok (valid, loaded) => if !valid || forcePre then .ok fresh else .ok loaded

/-- Number of the five masks of a sample that are set (target nonzero /
mask `true`) at pixel `(i, j)` — the quantity bounded by the pairwise
disjointness property. -/
def activeCount (s : MaskSet) (i j : Nat) : Nat :=
  (if natAt s.target i j ≠ 0 then 1 else 0) +
    (if maskAt s.otherSameClass i j then 1 else 0) +
    (if maskAt s.otherClasses i j then 1 else 0) +
    (if maskAt s.voidPixels i j then 1 else 0) +
    (if maskAt s.background i j then 1 else 0)

/-! # Theorems -/

/-! ## Generic helper lemmas -/

theorem pixAt_map2d (f : α → β) (m : List (List α)) (i j : Nat) :
    pixAt (map2d f m) i j = (pixAt m i j).map f := by
  simp only [pixAt, map2d, List.getElem?_map]
  cases m[i]? with
  | none => rfl
  | some row => simp [List.getElem?_map]

theorem natAt_map2d (f : α → Nat) (m : List (List α)) (i j : Nat) :
    natAt (map2d f m) i j = (pixAt m i j).elim 0 f := by
  rw [natAt, pixAt_map2d]
  cases pixAt m i j <;> rfl

theorem maskAt_map2d (f : α → Bool) (m : List (List α)) (i j : Nat) :
    maskAt (map2d f m) i j = (pixAt m i j).elim false f := by
  rw [maskAt, pixAt_map2d]
  cases pixAt m i j <;> rfl

theorem zipWith_map_same (f : β → γ → δ) (g : α → β) (h : α → γ) (l : List α) :
    List.zipWith f (l.map g) (l.map h) = l.map (fun v => f (g v) (h v)) := by
  induction l with
  | nil => rfl
  | cons x xs ih => simp [ih]

theorem zip2d_map2d_same (f : β → γ → δ) (g : α → β) (h : α → γ) (m : List (List α)) :
    zip2d f (map2d g m) (map2d h m) = map2d (fun v => f (g v) (h v)) m := by
  induction m with
  | nil => rfl
  | cons r rs ih =>
    simp only [zip2d, map2d, List.map_cons, List.zipWith_cons_cons] at *
    rw [zipWith_map_same]
    exact congrArg _ ih

theorem map2d_map2d (f : β → γ) (g : α → β) (m : List (List α)) :
    map2d f (map2d g m) = map2d (fun v => f (g v)) m := by
  simp [map2d, List.map_map, Function.comp]

theorem map2d_congr {f g : α → β} (h : ∀ v, f v = g v) (m : List (List α)) :
    map2d f m = map2d g m := by
  have : f = g := funext h
  rw [this]

theorem getElem?_isSome_iff (l : List α) (n : Nat) : l[n]?.isSome = true ↔ n < l.length := by
  cases h : l[n]? with
  | none =>
    simp only [Option.isSome_none, Bool.false_eq_true, false_iff, not_lt]
    exact List.getElem?_eq_none_iff.mp h
  | some a =>
    simp only [Option.isSome_some, true_iff]
    exact (List.getElem?_eq_some_iff.mp h).1

theorem getD_mem_of_lt (l : List α) (n : Nat) (d : α) (h : n < l.length) : l.getD n d ∈ l := by
  rw [List.getD_eq_getElem?_getD, List.getElem?_eq_getElem h]
  exact List.getElem_mem h

/-! ## Object List helper lemmas -/

theorem validPositions_length (g : Nat → α) (L : List Int) :
    ((List.range L.length).filterMap (fun jj =>
      if L.getD jj 0 = -1 then none else some (g jj))).length =
    (L.filter (fun x => x != -1)).length := by
  induction L generalizing g with
  | nil => rfl
  | cons x xs ih =>
    have hcomp : (fun jj => if (x :: xs).getD jj 0 = -1 then none else some (g jj)) ∘ Nat.succ =
        (fun jj => if xs.getD jj 0 = -1 then none else some ((g ∘ Nat.succ) jj)) := by
      funext jj
      simp [Function.comp, List.getD_cons_succ]
    rw [List.length_cons, List.range_succ_eq_map, List.filterMap_cons, List.filterMap_map, hcomp]
    by_cases hx : x = -1
    · simpa [hx] using ih (g ∘ Nat.succ)
    · simpa [hx] using ih (g ∘ Nat.succ)

theorem range_map_getD (l : List α) (dflt : α) (F : α → β) :
    (List.range l.length).map (fun ii => F (l.getD ii dflt)) = l.map F := by
  induction l generalizing F with
  | nil => rfl
  | cons x xs ih =>
    rw [List.length_cons, List.range_succ_eq_map, List.map_cons, List.map_map, List.map_cons]
    simp only [List.getD_cons_zero]
    refine congrArg _ ?_
    have : ((fun ii => F (List.getD (x :: xs) ii dflt)) ∘ Nat.succ) =
        (fun ii => F (xs.getD ii dflt)) := by
      funext ii
      simp [Function.comp, List.getD_cons_succ]
    rw [this, ih F]

/-! ## Claim C9 -/

/-- C9: dataset construction succeeds only when the Object List contains at
least two entries — the constructor's unconditional final step
`self._make_img_gt_point_pair(1)` succeeds exactly when position `1` of the
freshly built Object List exists, i.e. when the list has at least two
entries; with fewer, construction fails with an out-of-range access
(`none`). -/
theorem construction_requires_two_objects (imIds : List String)
    (objDict : String → List Int) (masksOf : Nat → List (List Nat)) (dflt : Bool) :
    (initFinalStep imIds objDict masksOf dflt).isSome = true ↔
      2 ≤ (buildObjList imIds objDict).length := by
  have hmap : ∀ (o : Option (Nat × Nat)) (f : Nat × Nat → MaskSet),
      (o.map f).isSome = o.isSome := by
    intro o f
    cases o <;> rfl
  rw [initFinalStep, makePairAt, hmap, getElem?_isSome_iff]
  omega

/-! ## Claim C6 -/

/-- C6: `__len__` equals the total count of non-sentinel entries over all
Instance Category Lists of the catalog, never exceeds the total raw instance
count, and the Object List built at lines 86-95 is a deterministic function
of the identifier order and the catalog contents alone (two catalogs that
agree on every loaded identifier yield the same Object List, entry for
entry). -/
theorem datasetLen_eq_nonSentinelTotal (imIds : List String)
    (objDict objDict' : String → List Int)
    (hagree : ∀ k ∈ imIds, objDict k = objDict' k) :
    datasetLen imIds objDict = nonSentinelTotal imIds objDict ∧
    datasetLen imIds objDict ≤ rawInstanceTotal imIds objDict ∧
    buildObjList imIds objDict = buildObjList imIds objDict' := by
  have hlen : datasetLen imIds objDict = nonSentinelTotal imIds objDict := by
    rw [datasetLen, buildObjList, List.length_flatMap, nonSentinelTotal]
    rw [← range_map_getD imIds "" (fun k => ((objDict k).filter (fun x => x != -1)).length)]
    refine congrArg List.sum (List.map_congr_left ?_)
    intro ii _
    simp only [Function.comp_apply]
    exact validPositions_length (fun jj => (ii, jj)) (objDict (imIds.getD ii ""))
  refine ⟨hlen, ?_, ?_⟩
  · rw [hlen, nonSentinelTotal, rawInstanceTotal]
    refine List.sum_le_sum ?_
    intro k _
    exact List.Sublist.length_le (List.filter_sublist _)
  · rw [buildObjList, buildObjList]
    rw [List.flatMap_def, List.flatMap_def]
    refine congrArg List.flatten (List.map_congr_left ?_)
    intro ii hii
    rw [List.mem_range] at hii
    rw [hagree (imIds.getD ii "") (getD_mem_of_lt imIds ii "" hii)]

/-- Witness for C6 at a concrete configuration: two images, one sentinel
entry among three raw instances. -/
theorem datasetLen_eq_nonSentinelTotal_witness :
    datasetLen ["a", "b"] (fun k => if k = "a" then [5, -1] else [3]) =
      nonSentinelTotal ["a", "b"] (fun k => if k = "a" then [5, -1] else [3]) ∧
    datasetLen ["a", "b"] (fun k => if k = "a" then [5, -1] else [3]) ≤
      rawInstanceTotal ["a", "b"] (fun k => if k = "a" then [5, -1] else [3]) ∧
    buildObjList ["a", "b"] (fun k => if k = "a" then [5, -1] else [3]) =
      buildObjList ["a", "b"] (fun k => if k = "a" then [5, -1] else [3]) :=
  datasetLen_eq_nonSentinelTotal ["a", "b"] _ _ (fun _ _ => rfl)

/-! ## Claim C8 -/

/-- C8: in default mode the target mask equals the raw instance raster with
boundary (`255`) pixels zeroed, pixel for pixel (multi-valued, not
binarized); the background mask holds exactly at pixels where the
void-zeroed raster is `0` and the pixel is not void; and both distractor
masks are all-zero. -/
theorem default_mode_masks (raw : List (List Nat)) (cats : List Int) (objIdx i j : Nat) :
    natAt (makeImgGtPointPair true raw cats objIdx).target i j
        = (pixAt raw i j).elim 0 (fun v => if v = 255 then 0 else v) ∧
    maskAt (makeImgGtPointPair true raw cats objIdx).background i j
        = (pixAt raw i j).elim false
            (fun v => decide ((if v = 255 then 0 else v) = 0 ∧ v ≠ 255)) ∧
    maskAt (makeImgGtPointPair true raw cats objIdx).otherClasses i j = false ∧
    maskAt (makeImgGtPointPair true raw cats objIdx).otherSameClass i j = false := by
  refine ⟨?_, ?_, ?_, ?_⟩
  · have h1 : (makeImgGtPointPair true raw cats objIdx).target =
        map2d (fun v => if v = 255 then 0 else v) raw := rfl
    rw [h1]
    exact natAt_map2d _ raw i j
  · have h1 : (makeImgGtPointPair true raw cats objIdx).background =
        zip2d (fun t w => (t == 0) && !w) (map2d (fun v => if v = 255 then 0 else v) raw)
          (map2d (fun v => v == 255) raw) := rfl
    rw [h1, zip2d_map2d_same, maskAt_map2d]
    cases hp : pixAt raw i j with
    | none => rfl
    | some v =>
      simp only [Option.elim]
      by_cases h2 : v = 255
      · simp [h2]
      · by_cases h4 : v = 0 <;> simp [h2, h4]
  · have h1 : (makeImgGtPointPair true raw cats objIdx).otherClasses =
        map2d (fun _ => false) (map2d (fun v => if v = 255 then 0 else v) raw) := rfl
    rw [h1, map2d_map2d, maskAt_map2d]
    cases pixAt raw i j <;> rfl
  · have h1 : (makeImgGtPointPair true raw cats objIdx).otherSameClass =
        map2d (fun _ => false) (map2d (fun v => if v = 255 then 0 else v) raw) := rfl
    rw [h1, map2d_map2d, maskAt_map2d]
    cases pixAt raw i j <;> rfl

/-! ## Claim C1 -/

/-- C1 counterexample: the retrieved sample does not contain all five mask
arrays.  Two configurations that differ only in a distractor category
(instance 2 labelled `5` versus `9`) produce samples that are equal in every
component `__getitem__` returns (image, `gt`, `void_pixels`, `meta`), yet
their `_make_img_gt_point_pair` mask sets differ (the same-class and
other-class distractor masks swap).  Were the five masks part of the
sample, equal samples would force equal mask sets. -/
theorem getitem_drops_distractor_masks :
    getitem [(0, 0), (0, 1)] ["a"] (fun _ => [5, 5]) (fun _ => [[(0, 0, 0)]])
        (fun _ => [[0, 1, 2]]) false true none 0 =
      getitem [(0, 0), (0, 1)] ["a"] (fun _ => [5, 9]) (fun _ => [[(0, 0, 0)]])
        (fun _ => [[0, 1, 2]]) false true none 0 ∧
    makeImgGtPointPair false [[0, 1, 2]] [5, 5] 0 ≠
      makeImgGtPointPair false [[0, 1, 2]] [5, 9] 0 := by
  constructor
  · rfl
  · decide

/-- C1 amended: for every valid Object List position, `__getitem__` returns
a sample containing the decoded image, the target (`gt`) mask and the void
mask produced by the assembler, plus the metadata (image identifier,
instance position, category, spatial size) exactly when the metadata-return
flag is enabled; the other-class, same-class and background masks are
discarded at line 107 and are not part of the sample. -/
theorem getitem_sample_contents (objList : List (Nat × Nat)) (imIds : List String)
    (objDict : String → List Int) (imagesOf : Nat → RGBImage)
    (masksOf : Nat → List (List Nat)) (dflt retname : Bool) (index imII objII : Nat)
    (hp : objList[index]? = some (imII, objII)) :
    getitem objList imIds objDict imagesOf masksOf dflt retname none index =
      some { image := imagesOf imII
             gt := (makeImgGtPointPair dflt (masksOf imII)
               (objDict (imIds.getD imII "")) objII).target
             voidPixels := (makeImgGtPointPair dflt (masksOf imII)
               (objDict (imIds.getD imII "")) objII).voidPixels
             meta :=
               if retname then
                 some { image := imIds.getD imII ""
                        object := toString objII
                        category := (objDict (imIds.getD imII "")).getD objII (-1)
                        imSize := imageSizeOf (imagesOf imII) }
               else none } := by
  rw [getitem, hp]

/-- Witness for the amended C1 at a concrete one-image configuration. -/
theorem getitem_sample_contents_witness :
    getitem [(0, 0)] ["a"] (fun _ => [5]) (fun _ => [[(1, 2, 3)]]) (fun _ => [[1]])
        false true none 0 =
      some { image := [[(1, 2, 3)]]
             gt := (makeImgGtPointPair false [[1]] ((fun _ => [5]) (List.getD ["a"] 0 "")) 0).target
             voidPixels := (makeImgGtPointPair false [[1]]
               ((fun _ => [5]) (List.getD ["a"] 0 "")) 0).voidPixels
             meta :=
               if true then
                 some { image := List.getD ["a"] 0 ""
                        object := toString 0
                        category := List.getD ((fun _ => [5]) (List.getD ["a"] 0 "")) 0 (-1)
                        imSize := imageSizeOf [[(1, 2, 3)]] }
               else none } :=
  getitem_sample_contents [(0, 0)] ["a"] (fun _ => [5]) (fun _ => [[(1, 2, 3)]])
    (fun _ => [[1]]) false true 0 0 0 (by decide)

/-! ## Claim C3 -/

/-- C3 counterexample: a malformed cache file is not treated as absent.  At
the concrete malformed content `"x"` the parse failure of `json.load`
propagates out of construction (`Except.error`), instead of reporting the
cache invalid and rebuilding. -/
theorem malformed_cache_raises :
    initCatalog (some ['x']) ["a"] [("a", [0])] false = Except.error () := rfl

/-- C3 amended: a cache file whose content fails to parse makes the parse
exception escape `_check_preprocess` and abort construction; only an absent
cache file (or a key-set mismatch) is treated as invalid and triggers the
full rebuild. -/
theorem malformed_cache_propagates (c : List Char) (imIds : List String)
    (fresh : List (String × List Int)) (forcePre : Bool)
    (hmal : parseCatalog c = none) :
    initCatalog (some c) imIds fresh forcePre = Except.error () ∧
    initCatalog none imIds fresh forcePre = Except.ok fresh := by
  constructor
  · rw [initCatalog, checkPreprocess, hmal]
  · rfl

/-- Witness for the amended C3 at the concrete malformed content `"x"`. -/
theorem malformed_cache_propagates_witness :
    initCatalog (some ['x']) ["b"] [("b", [7])] false = Except.error () ∧
    initCatalog none ["b"] [("b", [7])] false = Except.ok [("b", [7])] :=
  malformed_cache_propagates ['x'] ["b"] [("b", [7])] false (by decide)

/-! ## Index Builder helper lemmas (claim C2) -/

theorem mem_rowCoords (row : List Nat) (i v a b : Nat) :
    ∀ j, (a, b) ∈ rowCoords i j row v ↔ (a = i ∧ j ≤ b ∧ row[b - j]? = some v) := by
  induction row with
  | nil =>
    intro j
    simp [rowCoords]
  | cons x xs ih =>
    intro j
    rw [rowCoords]
    by_cases hx : x = v
    · rw [if_pos hx]
      constructor
      · intro hmem
        rcases List.mem_cons.mp hmem with h | h
        · have ha : a = i := congrArg Prod.fst h
          have hb : b = j := congrArg Prod.snd h
          subst ha; subst hb
          exact ⟨rfl, Nat.le_refl _, by simp [hx]⟩
        · obtain ⟨ha, hjb, hget⟩ := (ih (j + 1)).mp h
          refine ⟨ha, Nat.le_of_succ_le hjb, ?_⟩
          have hbj : b - j = (b - (j + 1)) + 1 := by omega
          rw [hbj, List.getElem?_cons_succ]
          exact hget
      · rintro ⟨ha, hjb, hget⟩
        rcases Nat.eq_or_lt_of_le hjb with hbe | hlt
        · subst ha
          have : b = j := hbe.symm
          subst this
          exact List.mem_cons_self _ _
        · refine List.mem_cons_of_mem _ ((ih (j + 1)).mpr ⟨ha, hlt, ?_⟩)
          have hbj : b - j = (b - (j + 1)) + 1 := by omega
          rw [hbj, List.getElem?_cons_succ] at hget
          exact hget
    · rw [if_neg hx, ih (j + 1)]
      constructor
      · rintro ⟨ha, hjb, hget⟩
        refine ⟨ha, Nat.le_of_succ_le hjb, ?_⟩
        have hbj : b - j = (b - (j + 1)) + 1 := by omega
        rw [hbj, List.getElem?_cons_succ]
        exact hget
      · rintro ⟨ha, hjb, hget⟩
        rcases Nat.eq_or_lt_of_le hjb with hbe | hlt
        · exfalso
          have : b = j := hbe.symm
          subst this
          rw [Nat.sub_self, List.getElem?_cons_zero] at hget
          exact hx (Option.some.injEq .. ▸ hget)
        · refine ⟨ha, hlt, ?_⟩
          have hbj : b - j = (b - (j + 1)) + 1 := by omega
          rw [hbj, List.getElem?_cons_succ] at hget
          exact hget

theorem mem_whereEqFrom (m : List (List Nat)) (v a b : Nat) :
    ∀ i, (a, b) ∈ whereEqFrom i m v ↔ (i ≤ a ∧ pixAt m (a - i) b = some v) := by
  induction m with
  | nil =>
    intro i
    simp [whereEqFrom, pixAt]
  | cons r rs ih =>
    intro i
    rw [whereEqFrom, List.mem_append, mem_rowCoords, ih (i + 1)]
    constructor
    · rintro (⟨ha, _, hget⟩ | ⟨hia, hget⟩)
      · subst ha
        refine ⟨Nat.le_refl _, ?_⟩
        rw [Nat.sub_self]
        simpa [pixAt] using hget
      · refine ⟨Nat.le_of_succ_le hia, ?_⟩
        have hai : a - i = (a - (i + 1)) + 1 := by omega
        rw [hai]
        simpa [pixAt, List.getElem?_cons_succ] using hget
    · rintro ⟨hia, hget⟩
      rcases Nat.eq_or_lt_of_le hia with hae | hlt
      · left
        have ha : a = i := hae.symm
        subst ha
        rw [Nat.sub_self] at hget
        exact ⟨rfl, Nat.zero_le _, by simpa [pixAt] using hget⟩
      · right
        refine ⟨hlt, ?_⟩
        have hai : a - i = (a - (i + 1)) + 1 := by omega
        rw [hai] at hget
        simpa [pixAt, List.getElem?_cons_succ] using hget

theorem mem_whereEq (m : List (List Nat)) (v a b : Nat) :
    (a, b) ∈ whereEq m v ↔ pixAt m a b = some v := by
  rw [whereEq, mem_whereEqFrom]
  simp

theorem rowCoords_pairwise (row : List Nat) (i v : Nat) :
    ∀ j, List.Pairwise lexLt (rowCoords i j row v) := by
  induction row with
  | nil =>
    intro j
    exact List.Pairwise.nil
  | cons x xs ih =>
    intro j
    rw [rowCoords]
    by_cases hx : x = v
    · rw [if_pos hx]
      refine List.pairwise_cons.mpr ⟨?_, ih (j + 1)⟩
      rintro ⟨a, b⟩ hmem
      obtain ⟨ha, hjb, _⟩ := (mem_rowCoords xs i v a b (j + 1)).mp hmem
      exact Or.inr ⟨ha.symm, hjb⟩
    · rw [if_neg hx]
      exact ih (j + 1)

theorem whereEqFrom_pairwise (m : List (List Nat)) (v : Nat) :
    ∀ i, List.Pairwise lexLt (whereEqFrom i m v) := by
  induction m with
  | nil =>
    intro i
    exact List.Pairwise.nil
  | cons r rs ih =>
    intro i
    rw [whereEqFrom, List.pairwise_append]
    refine ⟨rowCoords_pairwise r i v 0, ih (i + 1), ?_⟩
    rintro ⟨a, b⟩ hmem ⟨a2, b2⟩ hmem2
    obtain ⟨ha, _, _⟩ := (mem_rowCoords r i v a b 0).mp hmem
    obtain ⟨hia2, _⟩ := (mem_whereEqFrom rs v a2 b2 (i + 1)).mp hmem2
    exact Or.inl (by omega)

theorem rowCoords_length (row : List Nat) (i v : Nat) :
    ∀ j, (rowCoords i j row v).length = row.count v := by
  induction row with
  | nil =>
    intro j
    rfl
  | cons x xs ih =>
    intro j
    rw [rowCoords, List.count_cons]
    by_cases hx : x = v
    · rw [if_pos hx]
      simp [hx, ih (j + 1)]
    · rw [if_neg hx]
      have : (x == v) = false := by simpa using hx
      simp [this, ih (j + 1)]

theorem whereEq_length (m : List (List Nat)) (v : Nat) :
    (whereEq m v).length = pixelCount m v := by
  rw [whereEq, pixelCount]
  suffices h : ∀ i, (whereEqFrom i m v).length = (m.flatten).count v by exact h 0
  induction m with
  | nil =>
    intro i
    rfl
  | cons r rs ih =>
    intro i
    rw [whereEqFrom, List.length_append, rowCoords_length, List.flatten_cons,
      List.count_append, ih (i + 1)]

theorem whereEq_head_first (m : List (List Nat)) (v : Nat) (p : Nat × Nat)
    (rest : List (Nat × Nat)) (h : whereEq m v = p :: rest) : isFirstOcc m v p := by
  have hmem : p ∈ whereEq m v := by
    rw [h]
    exact List.mem_cons_self _ _
  have hp : pixAt m p.1 p.2 = some v := (mem_whereEq m v p.1 p.2).mp hmem
  refine ⟨hp, ?_⟩
  intro q hq
  have hqmem : q ∈ whereEq m v := (mem_whereEq m v q.1 q.2).mpr hq
  rw [h, List.mem_cons] at hqmem
  rcases hqmem with rfl | hqrest
  · right
    exact ⟨rfl, Nat.le_refl _⟩
  · have hpw := whereEqFrom_pairwise m v 0
    rw [← whereEq, h, List.pairwise_cons] at hpw
    rcases hpw.1 q hqrest with hlt | ⟨heq, hlt⟩
    · exact Or.inl hlt
    · exact Or.inr ⟨heq, Nat.le_of_lt hlt⟩

/-! ## Claim C2 -/

/-- C2: for every instance index `j` of the built Instance Category List,
the builder records the category raster's value at the row-major first pixel
carrying instance id `j + 1` whenever that instance's pixel count strictly
exceeds the area threshold, and records the sentinel `-1` otherwise; in
particular a pixel count exactly equal to the threshold yields the
sentinel. -/
theorem index_builder_area_threshold (mask : List (List Nat)) (cats : List (List Int))
    (t : Nat) (l : List Int) (h : buildCatIds mask cats t = some l) (j : Nat)
    (hj : j < l.length) :
    (t < pixelCount mask (j + 1) →
        ∃ r c, isFirstOcc mask (j + 1) (r, c) ∧ l.get ⟨j, hj⟩ = intAt cats r c) ∧
    (pixelCount mask (j + 1) ≤ t → l.get ⟨j, hj⟩ = -1) ∧
    (pixelCount mask (j + 1) = t → l.get ⟨j, hj⟩ = -1) := by
  have hval : l.get ⟨j, hj⟩ = instCat mask cats t j := by
    rw [buildCatIds] at h
    cases hno : nObjOf mask with
    | none =>
      rw [hno] at h
      cases h
    | some n =>
      rw [hno, Option.map_some'] at h
      have hl : (List.range n).map (instCat mask cats t) = l := by injection h
      subst hl
      rw [List.get_eq_getElem, List.getElem_map, List.getElem_range]
  rw [hval, instCat]
  cases hc : whereEq mask (j + 1) with
  | nil =>
    have hcount : pixelCount mask (j + 1) = 0 := by
      rw [← whereEq_length, hc]
      rfl
    refine ⟨fun hlt => absurd hlt (by omega), fun _ => rfl, fun _ => rfl⟩
  | cons p rest =>
    obtain ⟨r, c⟩ := p
    have hcount : pixelCount mask (j + 1) = ((r, c) :: rest).length := by
      rw [← whereEq_length, hc]
    refine ⟨fun hlt => ?_, fun hle => ?_, fun heq => ?_⟩
    · refine ⟨r, c, whereEq_head_first mask (j + 1) (r, c) rest hc, ?_⟩
      show (if ((r, c) :: rest).length > t then intAt cats r c else -1) = intAt cats r c
      rw [if_pos (by omega)]
    · show (if ((r, c) :: rest).length > t then intAt cats r c else -1) = -1
      rw [if_neg (by omega)]
    · show (if ((r, c) :: rest).length > t then intAt cats r c else -1) = -1
      rw [if_neg (by omega)]

/-- Witness for C2 at a concrete one-pixel raster: the single instance `1`
has one pixel, exceeding the default threshold `0`, and its category `7` is
recorded. -/
theorem index_builder_area_threshold_witness :
    (0 < pixelCount [[1]] (0 + 1) →
        ∃ r c, isFirstOcc [[1]] (0 + 1) (r, c) ∧
          ([7] : List Int).get ⟨0, by decide⟩ = intAt [[7]] r c) ∧
    (pixelCount [[1]] (0 + 1) ≤ 0 → ([7] : List Int).get ⟨0, by decide⟩ = -1) ∧
    (pixelCount [[1]] (0 + 1) = 0 → ([7] : List Int).get ⟨0, by decide⟩ = -1) :=
  index_builder_area_threshold [[1]] [[7]] 0 [7] (by decide) 0 (by decide)

/-! ## Sorted-unique-values helper lemmas (claim C5) -/

theorem uniqueSorted_sorted (l : List Nat) : List.Sorted (· ≤ ·) (uniqueSorted l) :=
  List.Pairwise.sublist (List.dedup_sublist _)
    (List.sorted_insertionSort (· ≤ ·) l)

theorem mem_uniqueSorted (l : List Nat) (x : Nat) : x ∈ uniqueSorted l ↔ x ∈ l := by
  rw [uniqueSorted, List.mem_dedup]
  exact (List.perm_insertionSort (· ≤ ·) l).mem_iff

theorem uniqueSorted_nodup (l : List Nat) : (uniqueSorted l).Nodup :=
  List.nodup_dedup _

theorem getLast?_mem (l : List α) (a : α) (h : l.getLast? = some a) : a ∈ l := by
  cases l with
  | nil => cases h
  | cons x xs =>
    rw [List.getLast?_eq_getLast (x :: xs) (by simp)] at h
    have := Option.some.inj h
    rw [← this]
    exact List.getLast_mem _

theorem sorted_le_getLast (l : List Nat) (m : Nat) (hs : List.Sorted (· ≤ ·) l)
    (hm : l.getLast? = some m) : ∀ x ∈ l, x ≤ m := by
  intro x hx
  have hne : l ≠ [] := by
    intro he
    rw [he] at hm
    cases hm
  have hconcat := List.dropLast_append_getLast hne
  rw [List.getLast?_eq_getLast l hne] at hm
  have hlast : l.getLast hne = m := Option.some.inj hm
  rw [← hconcat, List.mem_append] at hx
  rcases hx with hx | hx
  · have hpw : List.Pairwise (fun a b => a ≤ b) (l.dropLast ++ [l.getLast hne]) := by
      rw [hconcat]
      exact hs
    have hle := (List.pairwise_append.mp hpw).2.2 x hx (l.getLast hne)
      (List.mem_singleton.mpr rfl)
    exact hle.trans_eq hlast
  · rw [List.mem_singleton.mp hx, hlast]

theorem le_foldr_max (l : List Nat) (x : Nat) (hx : x ∈ l) : x ≤ l.foldr max 0 := by
  induction l with
  | nil => cases hx
  | cons y ys ih =>
    rcases List.mem_cons.mp hx with rfl | hmem
    · exact Nat.le_max_left _ _
    · exact (ih hmem).trans (Nat.le_max_right _ _)

theorem foldr_max_le (l : List Nat) (m : Nat) (h : ∀ x ∈ l, x ≤ m) : l.foldr max 0 ≤ m := by
  induction l with
  | nil => exact Nat.zero_le _
  | cons y ys ih =>
    refine Nat.max_le.mpr ⟨h y (List.mem_cons_self _ _), ih ?_⟩
    intro x hx
    exact h x (List.mem_cons_of_mem _ hx)

theorem foldr_max_eq (l : List Nat) (m : Nat) (hm : m ∈ l) (h : ∀ x ∈ l, x ≤ m) :
    l.foldr max 0 = m :=
  Nat.le_antisymm (foldr_max_le l m h) (le_foldr_max l m hm)

/-! ## Claim C5 -/

/-- C5 counterexample: on the raster `[[0, 1, 3]]` (instance id `2` absent)
the builder produces a list of length `3` (one entry per id up to the
maximum), while only `2` distinct non-zero non-boundary instance ids are
present. -/
theorem catIds_length_counterexample :
    buildCatIds [[0, 1, 3]] [[0, 0, 0]] 0 = some [0, -1, 0] ∧
    ([0, -1, 0] : List Int).length ≠ (distinctInstanceIds [[0, 1, 3]]).length := by
  constructor
  · decide
  · decide

/-- C5 amended: the Instance Category List's length equals the maximum
non-boundary (`≠ 255`) value of the instance raster — the derived instance
count `n_obj` — which coincides with the number of distinct non-zero,
non-boundary instance ids exactly when those ids are contiguous
`1, ..., n_obj`. -/
theorem catIds_length_eq_max (mask : List (List Nat)) (cats : List (List Int))
    (t : Nat) (l : List Int) (h : buildCatIds mask cats t = some l) :
    l.length = maxNonBoundary mask ∧
    (distinctInstanceIds mask = List.range' 1 (maxNonBoundary mask) →
      l.length = (distinctInstanceIds mask).length) := by
  have hmain : l.length = maxNonBoundary mask := by
    rw [buildCatIds] at h
    cases hno : nObjOf mask with
    | none =>
      rw [hno] at h
      cases h
    | some n =>
      rw [hno, Option.map_some'] at h
      have hlen : l.length = n := by
        have : (List.range n).map (instCat mask cats t) = l := by injection h
        rw [← this, List.length_map, List.length_range]
      rw [hlen]
      rcases hlast : (uniqueSorted mask.flatten).getLast? with _ | lastId
      · exfalso
        have hnone : nObjOf mask = none := by
          rw [nObjOf, hlast]
        rw [hnone] at hno
        cases hno
      · have hno' : (if lastId = 255 then (uniqueSorted mask.flatten).dropLast.getLast?
            else some lastId) = some n := by
          have heq : nObjOf mask =
              (if lastId = 255 then (uniqueSorted mask.flatten).dropLast.getLast?
                else some lastId) := by
            rw [nObjOf, hlast]
          rw [← heq]
          exact hno
        clear hno
        rename' hno' => hno
        by_cases h255 : lastId = 255
        · rw [if_pos h255] at hno
          have hne : uniqueSorted mask.flatten ≠ [] := by
            intro he
            rw [he] at hlast
            cases hlast
          have hconcat := List.dropLast_append_getLast hne
          rw [List.getLast?_eq_getLast _ hne] at hlast
          have hlasteq : (uniqueSorted mask.flatten).getLast hne = 255 :=
            (Option.some.inj hlast).trans h255
          have hnmem : n ∈ (uniqueSorted mask.flatten).dropLast := getLast?_mem _ n hno
          have hsorted' : List.Sorted (· ≤ ·) (uniqueSorted mask.flatten).dropLast :=
            List.Pairwise.sublist (List.dropLast_sublist _) (uniqueSorted_sorted _)
          have h255notin : (255 : Nat) ∉ (uniqueSorted mask.flatten).dropLast := by
            have hnd := uniqueSorted_nodup mask.flatten
            rw [← hconcat, hlasteq] at hnd
            have := List.disjoint_of_nodup_append hnd
            intro hmem
            exact this hmem (List.mem_singleton.mpr rfl)
          have hn255 : n ≠ 255 := fun he => h255notin (he ▸ hnmem)
          have hnflat : n ∈ mask.flatten := by
            rw [← mem_uniqueSorted, ← hconcat]
            exact List.mem_append_left _ hnmem
          rw [maxNonBoundary]
          refine (foldr_max_eq _ n ?_ ?_).symm
          · rw [List.mem_filter]
            exact ⟨hnflat, by simpa using hn255⟩
          · intro x hx
            rw [List.mem_filter] at hx
            have hxu : x ∈ uniqueSorted mask.flatten := (mem_uniqueSorted _ x).mpr hx.1
            have hx255 : x ≠ 255 := by simpa using hx.2
            rw [← hconcat, hlasteq, List.mem_append] at hxu
            rcases hxu with hxd | hxs
            · exact sorted_le_getLast _ n hsorted' hno x hxd
            · exact absurd (List.mem_singleton.mp hxs) hx255
        · rw [if_neg h255] at hno
          have hn : n = lastId := (Option.some.inj hno).symm
          subst hn
          have hnmem : n ∈ uniqueSorted mask.flatten := by
            exact getLast?_mem _ n hlast
          have hnflat : n ∈ mask.flatten := (mem_uniqueSorted _ n).mp hnmem
          rw [maxNonBoundary]
          refine (foldr_max_eq _ n ?_ ?_).symm
          · rw [List.mem_filter]
            exact ⟨hnflat, by simpa using h255⟩
          · intro x hx
            rw [List.mem_filter] at hx
            have hxu : x ∈ uniqueSorted mask.flatten := (mem_uniqueSorted _ x).mpr hx.1
            exact sorted_le_getLast _ n (uniqueSorted_sorted _) hlast x hxu
  refine ⟨hmain, fun hcontig => ?_⟩
  rw [hmain, hcontig, List.length_range']

/-- Witness for the amended C5 at the gap raster of the counterexample. -/
theorem catIds_length_eq_max_witness :
    ([0, -1, 0] : List Int).length = maxNonBoundary [[0, 1, 3]] ∧
    (distinctInstanceIds [[0, 1, 3]] = List.range' 1 (maxNonBoundary [[0, 1, 3]]) →
      ([0, -1, 0] : List Int).length = (distinctInstanceIds [[0, 1, 3]]).length) :=
  catIds_length_eq_max [[0, 1, 3]] [[0, 0, 0]] 0 [0, -1, 0] (by decide)

/-! ## Distractor-loop characterization (claims C7, C10) -/

theorem sameOtherFold (tmp : List (List Nat)) (cats : List Int) (objIdx : Nat)
    (L : List Nat) (f g : Nat → Bool) :
    L.foldl (sameOtherStep tmp cats objIdx) (map2d f tmp, map2d g tmp) =
      (map2d (fun v => f v ||
        L.any (fun ii => sameCondB cats objIdx ii && (v == ii))) tmp,
       map2d (fun v => g v ||
        L.any (fun ii => otherCondB cats objIdx ii && (v == ii))) tmp) := by
  induction L generalizing f g with
  | nil =>
    simp only [List.foldl_nil, List.any_nil, Bool.or_false]
  | cons ii L ih =>
    rw [List.foldl_cons]
    by_cases hsame : sameCondB cats objIdx ii = true
    · have hstep : sameOtherStep tmp cats objIdx (map2d f tmp, map2d g tmp) ii =
          (map2d (fun v => f v || (v == ii)) tmp, map2d g tmp) := by
        rw [sameOtherStep, if_pos hsame]
        rw [zip2d_map2d_same]
      rw [hstep, ih]
      obtain ⟨hbeq, hne⟩ := Bool.and_eq_true_iff.mp hsame
      have hoc : otherCondB cats objIdx ii = false := by
        rw [otherCondB, hbeq]
        rfl
      refine Prod.ext ?_ ?_ <;> simp only []
      · refine map2d_congr (fun v => ?_) tmp
        rw [List.any_cons, hsame]
        cases f v <;> cases (v == ii) <;>
          cases L.any (fun ii => sameCondB cats objIdx ii && (v == ii)) <;> rfl
      · refine map2d_congr (fun v => ?_) tmp
        rw [List.any_cons, hoc]
        rfl
    · by_cases hne : (ii != objIdx + 1) = true
      · have hoc : otherCondB cats objIdx ii = true := by
          rw [otherCondB, hne, Bool.and_true]
          rw [sameCondB, hne, Bool.and_true] at hsame
          simp only [Bool.not_eq_true] at hsame ⊢
          rw [hsame]
          rfl
        have hstep : sameOtherStep tmp cats objIdx (map2d f tmp, map2d g tmp) ii =
            (map2d f tmp, map2d (fun v => g v || (v == ii)) tmp) := by
          rw [sameOtherStep, if_neg (by simpa using hsame), if_pos hne]
          rw [zip2d_map2d_same]
        rw [hstep, ih]
        refine Prod.ext ?_ ?_ <;> simp only []
        · refine map2d_congr (fun v => ?_) tmp
          rw [List.any_cons]
          have hsf : sameCondB cats objIdx ii = false := by simpa using hsame
          rw [hsf]
          rfl
        · refine map2d_congr (fun v => ?_) tmp
          rw [List.any_cons, hoc]
          cases g v <;> cases (v == ii) <;>
            cases L.any (fun ii => otherCondB cats objIdx ii && (v == ii)) <;> rfl
      · have hstep : sameOtherStep tmp cats objIdx (map2d f tmp, map2d g tmp) ii =
            (map2d f tmp, map2d g tmp) := by
          rw [sameOtherStep, if_neg (by simpa using hsame), if_neg (by simpa using hne)]
        rw [hstep, ih]
        have hnef : (ii != objIdx + 1) = false := by simpa using hne
        have hsf : sameCondB cats objIdx ii = false := by simpa using hsame
        have hoc : otherCondB cats objIdx ii = false := by
          rw [otherCondB, hnef, Bool.and_false]
        refine Prod.ext ?_ ?_ <;> simp only []
        · refine map2d_congr (fun v => ?_) tmp
          rw [List.any_cons, hsf]
          rfl
        · refine map2d_congr (fun v => ?_) tmp
          rw [List.any_cons, hoc]
          rfl

theorem sameOtherLoop_eq (tmp : List (List Nat)) (cats : List Int) (objIdx : Nat) :
    sameOtherLoop tmp cats objIdx =
      (map2d (fun v => (List.range' 1 (maxOf tmp)).any
        (fun ii => sameCondB cats objIdx ii && (v == ii))) tmp,
       map2d (fun v => (List.range' 1 (maxOf tmp)).any
        (fun ii => otherCondB cats objIdx ii && (v == ii))) tmp) := by
  rw [sameOtherLoop, sameOtherFold]
  simp only [Bool.false_or]

theorem any_beq (L : List Nat) (c : Nat → Bool) (v : Nat) :
    L.any (fun ii => c ii && (v == ii)) = (decide (v ∈ L) && c v) := by
  induction L with
  | nil => simp
  | cons a L ih =>
    rw [List.any_cons, ih]
    by_cases hv : v = a
    · subst hv
      have h1 : (v == v) = true := by simp
      have h2 : decide (v ∈ v :: L) = true := by simp
      rw [h1, h2, Bool.and_true, Bool.true_and]
      cases c v <;> cases decide (v ∈ L) <;> rfl
    · have h1 : (v == a) = false := by simpa using hv
      have h2 : decide (v ∈ a :: L) = decide (v ∈ L) := by
        simp [List.mem_cons, hv]
      rw [h1, h2, Bool.and_false, Bool.false_or]

theorem pixAt_mem_flatten (m : List (List α)) (i j : Nat) (x : α)
    (h : pixAt m i j = some x) : x ∈ m.flatten := by
  rw [pixAt] at h
  cases hrow : m[i]? with
  | none =>
    rw [hrow] at h
    cases h
  | some row =>
    rw [hrow] at h
    have h2 : row[j]? = some x := h
    exact List.mem_flatten.mpr ⟨row, List.getElem?_mem hrow, List.getElem?_mem h2⟩

theorem perObject_pointwise (raw : List (List Nat)) (cats : List Int) (objIdx i j : Nat) :
    natAt (makeImgGtPointPair false raw cats objIdx).target i j
        = (pixAt raw i j).elim 0 (fun v =>
            if (if v = 255 then 0 else v) = objIdx + 1 then 1 else 0) ∧
    maskAt (makeImgGtPointPair false raw cats objIdx).voidPixels i j
        = (pixAt raw i j).elim false (fun v => v == 255) ∧
    maskAt (makeImgGtPointPair false raw cats objIdx).otherSameClass i j
        = (pixAt raw i j).elim false (fun v =>
            decide ((if v = 255 then 0 else v) ∈
                List.range' 1 (maxOf (map2d (fun w => if w = 255 then 0 else w) raw))) &&
              sameCondB cats objIdx (if v = 255 then 0 else v)) ∧
    maskAt (makeImgGtPointPair false raw cats objIdx).otherClasses i j
        = (pixAt raw i j).elim false (fun v =>
            decide ((if v = 255 then 0 else v) ∈
                List.range' 1 (maxOf (map2d (fun w => if w = 255 then 0 else w) raw))) &&
              otherCondB cats objIdx (if v = 255 then 0 else v)) ∧
    maskAt (makeImgGtPointPair false raw cats objIdx).background i j
        = (pixAt raw i j).elim false (fun v =>
            ((if v = 255 then 0 else v) == 0) && !(v == 255)) := by
  refine ⟨?_, ?_, ?_, ?_, ?_⟩
  · have h1 : (makeImgGtPointPair false raw cats objIdx).target =
        map2d (fun t => if t = objIdx + 1 then 1 else 0)
          (map2d (fun v => if v = 255 then 0 else v) raw) := rfl
    rw [h1, map2d_map2d]
    exact natAt_map2d _ raw i j
  · have h1 : (makeImgGtPointPair false raw cats objIdx).voidPixels =
        map2d (fun v => v == 255) raw := rfl
    rw [h1]
    exact maskAt_map2d _ raw i j
  · have h1 : (makeImgGtPointPair false raw cats objIdx).otherSameClass =
        map2d (fun x =>
            (List.range' 1 (maxOf (map2d (fun w => if w = 255 then 0 else w) raw))).any
              (fun ii => sameCondB cats objIdx ii && (x == ii)))
          (map2d (fun v => if v = 255 then 0 else v) raw) := by
      rw [show (makeImgGtPointPair false raw cats objIdx).otherSameClass =
        (sameOtherLoop (map2d (fun v => if v = 255 then 0 else v) raw) cats objIdx).1 from rfl]
      rw [sameOtherLoop_eq]
    rw [h1, map2d_map2d]
    rw [map2d_congr (fun v => any_beq _ _ _) raw]
    exact maskAt_map2d _ raw i j
  · have h1 : (makeImgGtPointPair false raw cats objIdx).otherClasses =
        map2d (fun x =>
            (List.range' 1 (maxOf (map2d (fun w => if w = 255 then 0 else w) raw))).any
              (fun ii => otherCondB cats objIdx ii && (x == ii)))
          (map2d (fun v => if v = 255 then 0 else v) raw) := by
      rw [show (makeImgGtPointPair false raw cats objIdx).otherClasses =
        (sameOtherLoop (map2d (fun v => if v = 255 then 0 else v) raw) cats objIdx).2 from rfl]
      rw [sameOtherLoop_eq]
    rw [h1, map2d_map2d]
    rw [map2d_congr (fun v => any_beq _ _ _) raw]
    exact maskAt_map2d _ raw i j
  · have h1 : (makeImgGtPointPair false raw cats objIdx).background =
        zip2d (fun t w => (t == 0) && !w)
          (map2d (fun v => if v = 255 then 0 else v) raw)
          (map2d (fun v => v == 255) raw) := rfl
    rw [h1, zip2d_map2d_same]
    exact maskAt_map2d _ raw i j

/-! ## Claim C7 -/

/-- C7: in per-object mode, at every non-void pixel at most one of the five
masks (target, same-class distractor, other-class distractor, void,
background) is set — they are pairwise disjoint outside the void region. -/
theorem perobject_masks_disjoint (raw : List (List Nat)) (cats : List Int)
    (objIdx i j : Nat)
    (hnv : maskAt (makeImgGtPointPair false raw cats objIdx).voidPixels i j = false) :
    activeCount (makeImgGtPointPair false raw cats objIdx) i j ≤ 1 := by
  obtain ⟨ht, hv, hs, ho, hb⟩ := perObject_pointwise raw cats objIdx i j
  rw [hv] at hnv
  rw [activeCount, ht, hv, hs, ho, hb]
  cases hp : pixAt raw i j with
  | none => simp
  | some v =>
    rw [hp] at hnv
    simp only [Option.elim] at hnv ⊢
    have hv255 : v ≠ 255 := by simpa using hnv
    have hz : (if v = 255 then 0 else v) = v := if_neg hv255
    simp only [hnv, hz]
    by_cases hvo : v = objIdx + 1
    · have h1 : (v != objIdx + 1) = false := by simp [hvo]
      rw [sameCondB, otherCondB, h1, Bool.and_false, Bool.and_false, Bool.and_false,
        Bool.and_false, if_pos hvo]
      have h2 : (v == 0) = false := by simp [hvo]
      rw [h2]
      simp
    · rw [if_neg hvo]
      by_cases hv0 : v = 0
      · subst hv0
        have h1 : decide ((0 : Nat) ∈ List.range' 1
            (maxOf (map2d (fun w => if w = 255 then 0 else w) raw))) = false := by
          simp [List.mem_range'_1]
        rw [h1, Bool.false_and, Bool.false_and]
        simp
      · have h2 : (v == 0) = false := by simpa using hv0
        rw [h2, Bool.false_and, sameCondB, otherCondB]
        have h3 : (v != objIdx + 1) = true := by simpa using hvo
        rw [h3, Bool.and_true, Bool.and_true]
        cases cats.getD objIdx (-1) == cats.getD (v - 1) (-1) <;>
          cases decide (v ∈ List.range' 1
            (maxOf (map2d (fun w => if w = 255 then 0 else w) raw))) <;>
          simp

/-- Witness for C7: a raster with a target pixel, a distractor pixel and a
background pixel, checked at the non-void background pixel `(0, 0)`. -/
theorem perobject_masks_disjoint_witness :
    maskAt (makeImgGtPointPair false [[0, 1, 2]] [5, 5] 0).voidPixels 0 0 = false ∧
    activeCount (makeImgGtPointPair false [[0, 1, 2]] [5, 5] 0) 0 0 ≤ 1 :=
  ⟨by decide, perobject_masks_disjoint [[0, 1, 2]] [5, 5] 0 0 0 (by decide)⟩

/-! ## Claim C10 -/

/-- C10: in per-object mode, a pixel carrying another instance id `k` whose
catalog entry is the sentinel `-1` (area-filtered, not addressable) is OR'd
into the other-class distractor mask and never into the same-class one,
because the target's (non-sentinel) category never equals the sentinel. -/
theorem sentinel_instance_is_other_class (raw : List (List Nat)) (cats : List Int)
    (objIdx i j k : Nat)
    (hobj : cats.getD objIdx (-1) ≠ -1)
    (hsent : cats.getD (k - 1) (-1) = -1)
    (hk1 : 1 ≤ k) (hk255 : k ≠ 255) (hkne : k ≠ objIdx + 1)
    (hpix : pixAt raw i j = some k) :
    maskAt (makeImgGtPointPair false raw cats objIdx).otherClasses i j = true ∧
    maskAt (makeImgGtPointPair false raw cats objIdx).otherSameClass i j = false := by
  obtain ⟨_, _, hs, ho, _⟩ := perObject_pointwise raw cats objIdx i j
  have hz : (if k = 255 then 0 else k) = k := if_neg hk255
  have hbeq : (cats.getD objIdx (-1) == cats.getD (k - 1) (-1)) = false := by
    rw [hsent]
    simpa using hobj
  have hkmem : k ∈ List.range' 1 (maxOf (map2d (fun w => if w = 255 then 0 else w) raw)) := by
    have hkpix : pixAt (map2d (fun w => if w = 255 then 0 else w) raw) i j = some k := by
      rw [pixAt_map2d, hpix, Option.map_some', hz]
    have hkflat := pixAt_mem_flatten _ i j k hkpix
    have hkle := le_foldr_max _ k hkflat
    rw [List.mem_range'_1]
    exact ⟨hk1, by rw [maxOf] at *; omega⟩
  have hne : (k != objIdx + 1) = true := by simpa using hkne
  constructor
  · rw [ho, hpix]
    simp only [Option.elim, hz, otherCondB, hbeq, hne]
    simp [hkmem]
  · rw [hs, hpix]
    simp only [Option.elim, hz, sameCondB, hbeq]
    simp

/-- Witness for C10: raster `[[1, 2]]`, catalog `[5, -1]`, target instance
position `0`; the pixel `(0, 1)` carrying the filtered instance `2` lands in
the other-class mask only. -/
theorem sentinel_instance_is_other_class_witness :
    maskAt (makeImgGtPointPair false [[1, 2]] [5, -1] 0).otherClasses 0 1 = true ∧
    maskAt (makeImgGtPointPair false [[1, 2]] [5, -1] 0).otherSameClass 0 1 = false :=
  sentinel_instance_is_other_class [[1, 2]] [5, -1] 0 0 1 2 (by decide) (by decide)
    (by decide) (by decide) (by decide) (by decide)

/-! ## Decimal rendering lemmas (claim C4) -/

theorem digitVal_digitChar (d : Nat) (h : d < 10) : digitVal (Nat.digitChar d) = d := by
  interval_cases d <;> rfl

theorem digitChar_isDigit (d : Nat) (h : d < 10) : (Nat.digitChar d).isDigit = true := by
  interval_cases d <;> rfl

theorem digitChar_ne_dash (d : Nat) (h : d < 10) : Nat.digitChar d ≠ '-' := by
  interval_cases d <;> decide

theorem natRepr_ne_nil (n : Nat) : natRepr n ≠ [] := by
  rw [natRepr]
  by_cases hn : n = 0
  · simp [hn]
  · rw [if_neg hn]
    intro he
    rw [List.reverse_eq_nil_iff, List.map_eq_nil_iff] at he
    exact hn (Nat.digits_eq_nil_iff_eq_zero.mp he)

theorem natRepr_all_digits (n : Nat) : ∀ c ∈ natRepr n, c.isDigit = true := by
  intro c hc
  rw [natRepr] at hc
  by_cases hn : n = 0
  · rw [if_pos hn] at hc
    rw [List.mem_singleton.mp hc]
    rfl
  · rw [if_neg hn, List.mem_reverse, List.mem_map] at hc
    obtain ⟨d, hd, rfl⟩ := hc
    exact digitChar_isDigit d (Nat.digits_lt_base (by norm_num) hd)

theorem foldr_digits (l : List Nat) (h : ∀ d ∈ l, d < 10) :
    l.foldr (fun d acc => 10 * acc + digitVal (Nat.digitChar d)) 0 = Nat.ofDigits 10 l := by
  induction l with
  | nil => rfl
  | cons d ds ih =>
    rw [List.foldr_cons, ih (fun x hx => h x (List.mem_cons_of_mem _ hx)),
      digitVal_digitChar d (h d (List.mem_cons_self _ _)), Nat.ofDigits_cons]
    omega

theorem natRepr_foldl (n : Nat) :
    (natRepr n).foldl (fun a c => 10 * a + digitVal c) 0 = n := by
  rw [natRepr]
  by_cases hn : n = 0
  · rw [if_pos hn, hn]
    rfl
  · rw [if_neg hn, List.foldl_reverse]
    have hmap : (List.map Nat.digitChar (Nat.digits 10 n)).foldr
        (fun x y => 10 * y + digitVal x) 0 =
        (Nat.digits 10 n).foldr (fun d acc => 10 * acc + digitVal (Nat.digitChar d)) 0 :=
      List.foldr_map _ _ _ _
    rw [hmap, foldr_digits _ (fun d hd => Nat.digits_lt_base (by norm_num) hd),
      Nat.ofDigits_digits]

theorem takeWhile_append_all (p : α → Bool) (l r : List α)
    (hl : ∀ a ∈ l, p a = true) (hr : ∀ c, r.head? = some c → p c = false) :
    (l ++ r).takeWhile p = l ∧ (l ++ r).dropWhile p = r := by
  induction l with
  | nil =>
    rw [List.nil_append]
    cases r with
    | nil => exact ⟨rfl, rfl⟩
    | cons c cs =>
      have hc : p c = false := hr c rfl
      rw [List.takeWhile_cons, List.dropWhile_cons, hc]
      exact ⟨rfl, rfl⟩
  | cons a l ih =>
    have ha : p a = true := hl a (List.mem_cons_self _ _)
    obtain ⟨h1, h2⟩ := ih (fun x hx => hl x (List.mem_cons_of_mem _ hx))
    rw [List.cons_append, List.takeWhile_cons, List.dropWhile_cons, ha]
    simp [h1, h2]

theorem parseNat_natRepr (n : Nat) (r : List Char)
    (hr : ∀ c, r.head? = some c → c.isDigit = false) :
    parseNat (natRepr n ++ r) = some (n, r) := by
  obtain ⟨ht, hd⟩ := takeWhile_append_all (·.isDigit) (natRepr n) r (natRepr_all_digits n) hr
  rw [parseNat]
  simp only [ht, hd]
  have hne : (natRepr n).isEmpty = false := by
    cases hrep : natRepr n with
    | nil => exact absurd hrep (natRepr_ne_nil n)
    | cons c cs => rfl
  rw [hne]
  simp only [Bool.false_eq_true, if_false, natRepr_foldl]

theorem parseInt_intRepr (x : Int) (r : List Char)
    (hr : ∀ c, r.head? = some c → c.isDigit = false) :
    parseInt (intRepr x ++ r) = some (x, r) := by
  cases x with
  | ofNat n =>
    rw [intRepr]
    cases hrep : natRepr n with
    | nil => exact absurd hrep (natRepr_ne_nil n)
    | cons c cs =>
      have hcd : c.isDigit = true := by
        refine natRepr_all_digits n c ?_
        rw [hrep]
        exact List.mem_cons_self _ _
      have hcne : c ≠ '-' := by
        intro he
        rw [he] at hcd
        cases hcd
      rw [List.cons_append, parseInt, if_neg hcne, ← List.cons_append, ← hrep,
        parseNat_natRepr n r hr]
      rfl
  | negSucc n =>
    rw [intRepr, List.cons_append, parseInt, if_pos rfl, parseNat_natRepr (n + 1) r hr]
    rw [Option.map_some']
    refine congrArg some (Prod.ext ?_ rfl)
    rw [Int.negSucc_eq]
    norm_num

theorem intRepr_ne_nil (x : Int) : intRepr x ≠ [] := by
  cases x with
  | ofNat n => exact natRepr_ne_nil n
  | negSucc n => exact List.cons_ne_nil _ _

theorem intRepr_head_not_rbracket (x : Int) (c : Char) (cs : List Char)
    (h : intRepr x = c :: cs) : c ≠ ']' := by
  cases x with
  | ofNat n =>
    have hcd : c.isDigit = true := by
      refine natRepr_all_digits n c ?_
      rw [show natRepr n = intRepr (Int.ofNat n) from rfl, h]
      exact List.mem_cons_self _ _
    intro he
    rw [he] at hcd
    cases hcd
  | negSucc n =>
    rw [intRepr] at h
    have hc : c = '-' := (List.cons.injEq .. ▸ h).1.symm
    rw [hc]
    decide

theorem head_cons_not_digit (a : Char) (l : List Char) (ha : a.isDigit = false) :
    ∀ c, (a :: l).head? = some c → c.isDigit = false := by
  intro c hc
  rw [List.head?_cons] at hc
  rw [← Option.some.inj hc]
  exact ha

theorem parseItems_flatMap (xs : List Int) :
    ∀ (x : Int) (t : List Char) (fuel : Nat), xs.length + 1 ≤ fuel →
    parseItems fuel ((intRepr x ++ xs.flatMap (fun y => ',' :: ' ' :: intRepr y)) ++ ']' :: t)
      = some (x :: xs, t) := by
  induction xs with
  | nil =>
    intro x t fuel hfuel
    cases fuel with
    | zero => omega
    | succ f =>
      rw [List.flatMap_nil, List.append_nil]
      rw [parseItems, parseInt_intRepr x (']' :: t) (head_cons_not_digit ']' t (by decide))]
      rfl
  | cons y ys ih =>
    intro x t fuel hfuel
    cases fuel with
    | zero =>
      rw [List.length_cons] at hfuel
      omega
    | succ f =>
      have hshape : ((intRepr x ++ (y :: ys).flatMap (fun y => ',' :: ' ' :: intRepr y))
            ++ ']' :: t) =
          intRepr x ++ (',' :: ' ' ::
            ((intRepr y ++ ys.flatMap (fun y => ',' :: ' ' :: intRepr y)) ++ ']' :: t)) := by
        rw [List.flatMap_cons]
        simp [List.append_assoc]
      rw [hshape, parseItems,
        parseInt_intRepr x _ (head_cons_not_digit ',' _ (by decide))]
      have hrec := ih y t f (by rw [List.length_cons] at hfuel; omega)
      show Option.map (fun p => (x :: p.1, p.2))
        (parseItems f ((intRepr y ++ ys.flatMap fun y => ',' :: ' ' :: intRepr y) ++ ']' :: t))
          = some (x :: y :: ys, t)
      rw [hrec]
      rfl

theorem flatMap_items_length_ge (xs : List Int) :
    xs.length ≤ (xs.flatMap (fun y => ',' :: ' ' :: intRepr y)).length := by
  induction xs with
  | nil => simp
  | cons y ys ih =>
    rw [List.flatMap_cons, List.length_append, List.length_cons]
    simp only [List.length_cons]
    omega

theorem parseList_dumps (v : List Int) (t : List Char) :
    parseList (dumpsList v ++ t) = some (v, t) := by
  cases v with
  | nil => rfl
  | cons x xs =>
    cases hrep : intRepr x with
    | nil => exact absurd hrep (intRepr_ne_nil x)
    | cons c cs =>
      have hcne : c ≠ ']' := intRepr_head_not_rbracket x c cs hrep
      have hshape : dumpsList (x :: xs) ++ t =
          '[' :: c :: (cs ++ ((xs.flatMap (fun y => ',' :: ' ' :: intRepr y)) ++ ']' :: t)) := by
        rw [dumpsList, hrep]
        simp [List.append_assoc]
      rw [hshape, parseList, if_neg hcne]
      have hback : c :: (cs ++ ((xs.flatMap (fun y => ',' :: ' ' :: intRepr y)) ++ ']' :: t)) =
          intRepr x ++ ((xs.flatMap (fun y => ',' :: ' ' :: intRepr y)) ++ ']' :: t) := by
        rw [hrep, List.cons_append]
      rw [hback, ← List.append_assoc]
      refine parseItems_flatMap xs x t _ ?_
      have h1 := flatMap_items_length_ge xs
      rw [List.length_append, List.length_append, List.length_cons]
      omega

theorem parseKey_append (k : String) (r : List Char) (hk : keySafe k = true) :
    parseKey (k.data ++ '"' :: r) = some (k, r) := by
  have hl : ∀ a ∈ k.data, (a != '"') = true := by
    intro a ha
    have hsc : keySafeChar a = true := List.all_eq_true.mp hk a ha
    rw [keySafeChar] at hsc
    exact (Bool.and_eq_true_iff.mp ((Bool.and_eq_true_iff.mp hsc).1)).1
  have hr : ∀ c, ('"' :: r).head? = some c → (c != '"') = false := by
    intro c hc
    rw [List.head?_cons] at hc
    rw [← Option.some.inj hc]
    decide
  obtain ⟨ht, hd⟩ := takeWhile_append_all (· != '"') k.data ('"' :: r) hl hr
  rw [parseKey, ht, hd]
  show some (String.mk k.data, r) = some (k, r)
  rfl

theorem parseEntry_entryText (k : String) (v : List Int) (t : List Char)
    (hk : keySafe k = true) :
    parseEntry (entryText k v ++ t) = some ((k, v), t) := by
  have hshape : entryText k v ++ t =
      '\n' :: '\t' :: '"' :: (k.data ++ '"' :: ':' :: ' ' :: (dumpsList v ++ t)) := by
    rw [entryText]
    simp [List.append_assoc]
  rw [hshape, parseEntry, parseKey_append k _ hk]
  show Option.map (fun p => ((k, p.1), p.2)) (parseList (dumpsList v ++ t)) = some ((k, v), t)
  rw [parseList_dumps]
  rfl

theorem parseEntries_entriesTail (es : List (String × List Int)) :
    ∀ (e : String × List Int) (fuel : Nat), es.length + 1 ≤ fuel →
    keySafe e.1 = true → (∀ p ∈ es, keySafe p.1 = true) →
    parseEntries fuel (entryText e.1 e.2 ++ entriesTail es) = some (e :: es) := by
  induction es with
  | nil =>
    intro e fuel hf hke _
    cases fuel with
    | zero => omega
    | succ f =>
      rw [entriesTail, parseEntries, parseEntry_entryText e.1 e.2 _ hke]
      rfl
  | cons e2 es2 ih =>
    intro e fuel hf hke hsafe
    cases fuel with
    | zero =>
      rw [List.length_cons] at hf
      omega
    | succ f =>
      rw [entriesTail, parseEntries, parseEntry_entryText e.1 e.2 _ hke]
      have hrec := ih e2 f (by rw [List.length_cons] at hf; omega)
        (hsafe e2 (List.mem_cons_self _ _))
        (fun p hp => hsafe p (List.mem_cons_of_mem _ hp))
      show Option.map (e :: ·)
        (parseEntries f (entryText e2.1 e2.2 ++ entriesTail es2)) = some (e :: e2 :: es2)
      rw [hrec]
      rfl

theorem entriesTail_length_ge (es : List (String × List Int)) :
    es.length ≤ (entriesTail es).length := by
  induction es with
  | nil => simp [entriesTail]
  | cons e es ih =>
    rw [entriesTail, List.length_cons, List.length_cons, List.length_append]
    omega

theorem parseCatalog_serializeCatalog (es : List (String × List Int)) (hne : es ≠ [])
    (hsafe : ∀ p ∈ es, keySafe p.1 = true) :
    (serializeCatalog es).bind parseCatalog = some es := by
  cases es with
  | nil => exact absurd rfl hne
  | cons e es' =>
    show parseCatalog ('{' :: (entryText e.1 e.2 ++ entriesTail es')) = some (e :: es')
    rw [parseCatalog]
    refine parseEntries_entriesTail es' e _ ?_ (hsafe e (List.mem_cons_self _ _))
      (fun p hp => hsafe p (List.mem_cons_of_mem _ hp))
    have h1 := entriesTail_length_ge es'
    rw [List.length_append]
    omega

/-! ## Claim C4 -/

/-- C4: the Instance Catalog built from scratch by `_preprocess` and the
catalog obtained by parsing the cache file it writes are identical — the
hand-rolled writer of lines 158-162 followed by `json.load` is the identity
on the catalog's entries (key set and per-key category list alike), for any
non-empty identifier list whose identifiers contain no characters that JSON
string syntax would reinterpret. -/
theorem catalog_cache_roundtrip (imIds : List String) (masksOf : Nat → List (List Nat))
    (catRasterOf : Nat → List (List Int)) (thres : Nat) (es : List (String × List Int))
    (_hpre : preprocessCatalog imIds masksOf catRasterOf thres = some es)
    (hne : es ≠ []) (hsafe : ∀ p ∈ es, keySafe p.1 = true) :
    (serializeCatalog es).bind parseCatalog = some es :=
  parseCatalog_serializeCatalog es hne hsafe

/-- Witness for C4 at a concrete one-image catalog. -/
theorem catalog_cache_roundtrip_witness :
    (serializeCatalog [("a", [7])]).bind parseCatalog = some [("a", [7])] :=
  catalog_cache_roundtrip ["a"] (fun _ => [[1]]) (fun _ => [[7]]) 0 [("a", [7])]
    (by decide) (by decide) (by decide)
